import Mathlib

/-
Verification development for bowtie-inspect (src/bowtie_inspect.cpp).

The core is the reconstruction scan `print_index_sequences`, which walks the
joined sequence position by position, queries the mapping oracle
(`Ebwt::joinedToTextOff`, an external collaborator) and reassembles each
reference record, inserting gap characters for masked positions.  The scan
state (`curr_ref`, `curr_ref_seq`, `last_text_off`, `tlen`) and the loop body
are translated directly from the source.  Machine integers (`uint32_t`,
`size_t`) are modelled as `Nat` with explicit wraparound where the source can
overflow.
-/

/-- The `0xffffffff` sentinel used by the source for "no record". -/
def SENT : Nat := 4294967295

/-- Modelled from the spec: the result written by the mapping oracle
`joinedToTextOff` (which lives in ebwt.h, outside src/) into its three
out-parameters `tidx`, `textoff`, `tlen`.  The caller resets all three to the
sentinel before each call, so an oracle that leaves a field unwritten is the
oracle returning the sentinel for that field. -/
structure JtoRes where
  tidx : Nat
  textoff : Nat
  tlen : Nat
deriving DecidableEq

/-- The mutable scan cursor of `print_index_sequences` (lines 138-142). -/
structure InspectState where
  curr_ref : Nat
  curr_ref_seq : List Char
  last_text_off : Nat
  tlen : Nat
  out : List (Nat × List Char)
deriving DecidableEq

/-- Initial state: `curr_ref = 0xffffffff`, empty sequence, `last_text_off = 0`,
`tlen = 0xffffffff`, nothing emitted yet. -/
def initState : InspectState := ⟨SENT, [], 0, SENT, []⟩

/-- `uint32_t` subtraction `a - b` with wraparound. -/
def u32sub (a b : Nat) : Nat := (2 ^ 32 + a - b) % 2 ^ 32

/-- Trailing padding (lines 157-159 and 177-179): pad the accumulated sequence
with gap characters up to `tlen` when it is shorter. -/
def padTo (seq : List Char) (tlen : Nat) : List Char :=
  if seq.length < tlen then seq ++ List.replicate (tlen - seq.length) 'N' else seq

/-- Intra-record gap fill (lines 167-168): when `textoff - last_text_off > 1`,
append `textoff - last_text_off - (last_text_off ? 1 : 0)` gap characters. -/
def gapFill (textoff last : Nat) : List Char :=
  if u32sub textoff last > 1 then
    List.replicate (u32sub textoff last - (if last ≠ 0 then 1 else 0)) 'N'
  else []

/-- One iteration of the scan loop (lines 143-173), given the oracle's answer
`r` for the current position and the joined-sequence character `c` there. -/
def stepInspect (r : JtoRes) (c : Char) (s : InspectState) : InspectState :=
  if r.tidx ≠ SENT ∧ r.textoff < r.tlen then
    let s1 :=
      if r.tidx ≠ s.curr_ref then
        { curr_ref := r.tidx, curr_ref_seq := [], last_text_off := 0, tlen := r.tlen,
          out := if s.curr_ref ≠ SENT then
                   s.out ++ [(s.curr_ref, padTo s.curr_ref_seq r.tlen)]
                 else s.out }
      else { s with tlen := r.tlen }
    { s1 with curr_ref_seq := s1.curr_ref_seq ++ gapFill r.textoff s1.last_text_off ++ [c],
              last_text_off := r.textoff }
  else { s with tlen := r.tlen }

/-- The scan loop over the first `n` positions of the joined sequence. -/
def scanFold (oracle : Nat → JtoRes) (cat : List Char) (n : Nat) : InspectState :=
  (List.range n).foldl (fun s i => stepInspect (oracle i) (cat.getD i 'A') s) initState

/-- `print_index_sequences` (lines 130-183): run the scan over the whole joined
sequence, then close the final record (guard `curr_ref < refnames->size()`,
padding with the last-seen `tlen`).  Each emitted record is the pair of its
record index and its assembled character sequence. -/
def print_index_sequences (oracle : Nat → JtoRes) (cat : List Char) (nrefs : Nat) :
    List (Nat × List Char) :=
  let s := scanFold oracle cat cat.length
  if s.curr_ref < nrefs then s.out ++ [(s.curr_ref, padTo s.curr_ref_seq s.tlen)] else s.out

/-- The record identities emitted by the full-sequence reconstruction. -/
def emittedIds (oracle : Nat → JtoRes) (cat : List Char) (nrefs : Nat) : List Nat :=
  (print_index_sequences oracle cat nrefs).map Prod.fst

/-- The source's "owned" test for a position (line 150):
`tidx != 0xffffffff && textoff < tlen`. -/
def owned (oracle : Nat → JtoRes) (i : Nat) : Bool :=
  decide ((oracle i).tidx ≠ SENT ∧ (oracle i).textoff < (oracle i).tlen)

/-- Record identities of the owned positions among the first `n` positions, in
scan order (with repetitions). -/
def ownedIds (oracle : Nat → JtoRes) (n : Nat) : List Nat :=
  ((List.range n).filter (owned oracle)).map (fun i => (oracle i).tidx)

/-- Accumulator step for first-encountered-order deduplication. -/
def foInsert (acc : List Nat) (a : Nat) : List Nat :=
  if a ∈ acc then acc else acc ++ [a]

/-- The sequence of identities in first-encountered order, each exactly once. -/
def firstOccurs (l : List Nat) : List Nat := l.foldl foInsert []

/-- Modelled from the spec: for owned positions the reported record id indexes
the records collection, the offset lies inside `[0, record length)` (I1), the
reported length is a function of the record alone, and values fit in
`uint32_t`. -/
def oracleOwnedOK (oracle : Nat → JtoRes) (n nrefs : Nat) (len : Nat → Nat) : Prop :=
  ∀ i, i < n → (oracle i).tidx ≠ SENT →
    (oracle i).tidx < nrefs ∧ (oracle i).textoff < (oracle i).tlen ∧
    (oracle i).tlen = len (oracle i).tidx ∧ (oracle i).textoff < 2 ^ 32 ∧
    (oracle i).tlen < 2 ^ 32

/-- Modelled from the spec: invariant I2 — within a record, owned positions
are visited in non-decreasing intra-record offset order. -/
def oracleMonoOK (oracle : Nat → JtoRes) (n : Nat) : Prop :=
  ∀ i, i < n → ∀ j, j < n → i < j → (oracle i).tidx ≠ SENT → (oracle j).tidx ≠ SENT →
    (oracle i).tidx = (oracle j).tidx → (oracle i).textoff ≤ (oracle j).textoff

/-- Modelled from the spec: each record's owned positions form one contiguous
span of the joined sequence (the joined sequence is the concatenation of the
records, spec section 3), stated as convexity of ownership. -/
def oracleConvexOK (oracle : Nat → JtoRes) (n : Nat) : Prop :=
  ∀ i, i < n → ∀ j, j < n → ∀ k, k < n →
    (i < j ∧ j < k ∧ (oracle i).tidx ≠ SENT ∧ (oracle j).tidx ≠ SENT ∧
      (oracle k).tidx ≠ SENT ∧ (oracle i).tidx = (oracle k).tidx) →
    (oracle j).tidx = (oracle i).tidx

/-- Modelled from the spec: the full contract of the mapping oracle
(sections 3 and 6 of the spec; `joinedToTextOff` itself is outside src/),
together with the requirement that the records collection is indexable by
`uint32_t` record ids (its size does not exceed the sentinel). -/
def OracleOK (oracle : Nat → JtoRes) (n : Nat) (nrefs : Nat) (len : Nat → Nat) : Prop :=
  nrefs ≤ SENT ∧ oracleOwnedOK oracle n nrefs len ∧ oracleMonoOK oracle n ∧
    oracleConvexOK oracle n

instance (oracle : Nat → JtoRes) (n nrefs : Nat) (len : Nat → Nat) :
    Decidable (oracleOwnedOK oracle n nrefs len) := by
  unfold oracleOwnedOK
  infer_instance

set_option synthInstance.maxSize 512 in
set_option synthInstance.maxHeartbeats 1000000 in
instance (oracle : Nat → JtoRes) (n : Nat) : Decidable (oracleMonoOK oracle n) := by
  unfold oracleMonoOK
  infer_instance

set_option synthInstance.maxSize 512 in
set_option synthInstance.maxHeartbeats 1000000 in
instance (oracle : Nat → JtoRes) (n : Nat) : Decidable (oracleConvexOK oracle n) := by
  unfold oracleConvexOK
  infer_instance

instance (oracle : Nat → JtoRes) (n nrefs : Nat) (len : Nat → Nat) :
    Decidable (OracleOK oracle n nrefs len) := by
  unfold OracleOK
  infer_instance

/-- The `size_t` value `n - 1` (64-bit unsigned wraparound), as computed by the
loop bound `p_refnames->size() - 1` on line 191. -/
def size_t_pred (n : Nat) : Nat := (n + (2 ^ 64 - 1)) % 2 ^ 64

/-- `print_index_sequence_names` (lines 185-196): emit the label of each entry
at indices `0 ..= size()-2` of the refnames collection, one per line.  The
out-of-bounds read that the wrapped bound causes for an empty collection is
modelled by `getD` with a default. -/
def print_index_sequence_names (refnames : List String) : List String :=
  (List.range (size_t_pred refnames.length)).map (fun i => refnames.getD i "")

/-- The line-wrapping loop of `print_fasta_record` (lines 120-127): emit chunks
of `w` characters while more than `w` characters remain, then the non-empty
remainder.  The extra `0 < w` guard only serves termination; the claims about
this function assume `w ≥ 1`, and for `w = 0` the source loop does not
terminate. -/
def wrapLines (w : Nat) (s : List Char) : List (List Char) :=
  if h : 0 < w ∧ w < s.length then s.take w :: wrapLines w (s.drop w)
  else if s.length = 0 then [] else [s]
termination_by s.length
decreasing_by
  simp only [List.length_drop]
  omega

/-- `print_fasta_record` (lines 113-128): a header line `>defline` followed by
the sequence wrapped at width `w`. -/
def print_fasta_record (defline : String) (seq : List Char) (w : Nat) : List String :=
  (">" ++ defline) :: (wrapLines w seq).map (fun l => String.mk l)

/-- `parseInt` (lines 69-85): enforce that the already-converted `strtol` value
is at least `lower`; otherwise report the error message and exit non-zero
(modelled as `Except.error`).  (`strtol` always sets `endPtr`, so the
`endPtr != NULL` branch is the one taken.) -/
def parseInt (lower : Int) (errmsg : String) (l : Int) : Except String Int :=
  if l < lower then Except.error errmsg else Except.ok l

/-- The error message passed to `parseInt` for the `-a` wrap-width option
(line 100). -/
def acrossErrMsg : String := "-a/--across arg must be at least 1"

/-- Modelled from the spec: the loaded index as exposed by the index-loading
collaborator (section 6): the ordered refnames collection, the joined
sequence, and the mapping oracle. -/
structure IndexModel where
  refnames : List String
  cat : List Char
  oracle : Nat → JtoRes

/-- `driver` (lines 200-222): name-only mode emits just the labels; otherwise
the reconstruction runs and each record is formatted as a FASTA block. -/
def driver (across : Int) (names_only : Bool) (idx : IndexModel) : List String :=
  if names_only then print_index_sequence_names idx.refnames
  else
    ((print_index_sequences idx.oracle idx.cat idx.refnames.length).map
      (fun p => print_fasta_record (idx.refnames.getD p.1 "") p.2 across.toNat)).flatten

/-- `main` and `parseOptions` (option handling only): a supplied `-a` argument
goes through `parseInt 1` before the driver runs; an error there terminates
the process with a non-zero status and no output. -/
def bowtie_inspect_main (acrossArg : Option Int) (names_only : Bool) (idx : IndexModel) :
    Except String (List String) :=
  match acrossArg with
  | some v =>
    match parseInt 1 acrossErrMsg v with
    | Except.error e => Except.error e
    | Except.ok a => Except.ok (driver a names_only idx)
  | none => Except.ok (driver 60 names_only idx)

/-! Concrete indexes used to evaluate the reconstruction at specific inputs. -/

/-- Two records: record 0 with declared length 2 owned at joined positions 0,1
(offsets 0,1), record 1 with declared length 5 owned at joined position 2
(offset 0). -/
def exC1_oracle : Nat → JtoRes := fun i =>
  if i = 0 then ⟨0, 0, 2⟩ else if i = 1 then ⟨0, 1, 2⟩ else if i = 2 then ⟨1, 0, 5⟩
  else ⟨SENT, SENT, SENT⟩

/-- Declared record lengths for `exC1_oracle`: record 0 has length 2,
record 1 has length 5. -/
def exC1_len : Nat → Nat := fun t => if t = 0 then 2 else 5

def exC1_cat : List Char := ['A', 'C', 'G']

/-- One record of declared length 3 whose owned offsets in the scan are
exactly 0 and 2 (the position for offset 1 is excluded from the joined
sequence). -/
def exC2_oracle : Nat → JtoRes := fun i =>
  if i = 0 then ⟨0, 0, 3⟩ else if i = 1 then ⟨0, 2, 3⟩ else ⟨SENT, SENT, SENT⟩

def exC2_cat : List Char := ['A', 'C']

/-- One record of declared length 20 whose owned offsets in the scan are
exactly 0, 1, 2, 7, 8, 15. -/
def exC2b_oracle : Nat → JtoRes := fun i =>
  if i = 0 then ⟨0, 0, 20⟩ else if i = 1 then ⟨0, 1, 20⟩ else if i = 2 then ⟨0, 2, 20⟩
  else if i = 3 then ⟨0, 7, 20⟩ else if i = 4 then ⟨0, 8, 20⟩ else if i = 5 then ⟨0, 15, 20⟩
  else ⟨SENT, SENT, SENT⟩

def exC2b_cat : List Char := ['A', 'C', 'G', 'T', 'A', 'C']

/-- Claim C1, evaluated at a failing input: the oracle `exC1_oracle` satisfies
the oracle contract, yet the reconstruction emits record 0 (declared length 2)
with an assembled sequence of length 5: when the scan switches to record 1,
the close of record 0 pads with the freshly overwritten `tlen` of record 1.
So the emitted length does not equal the declared length. -/
theorem claim_C1_code_eval :
    OracleOK exC1_oracle 3 2 exC1_len ∧
    print_index_sequences exC1_oracle exC1_cat 2 =
      [(0, ['A', 'C', 'N', 'N', 'N']), (1, ['G', 'N', 'N', 'N', 'N'])] ∧
    exC1_len 0 = 2 ∧
    ((['A', 'C', 'N', 'N', 'N'] : List Char).length ≠ exC1_len 0) := by
  refine ⟨by decide, by decide, by decide, by decide⟩

/-- Claim C2, evaluated at a failing input: for a record of declared length 3
with owned offsets exactly 0 and 2, the code appends `textoff - last_text_off`
(not `... - 1`) gap characters because the `last_text_off ? 1 : 0` adjustment
is skipped when the previous owned offset is 0, producing the 4-character
sequence ANNC instead of the claimed 3-character ANC.  The claim's second
scenario (length 20, owned offsets 0,1,2,7,8,15) does hold, because there
every gap follows a non-zero previous offset. -/
theorem claim_C2_code_eval :
    OracleOK exC2_oracle 2 1 (fun _ => 3) ∧
    print_index_sequences exC2_oracle exC2_cat 1 = [(0, ['A', 'N', 'N', 'C'])] ∧
    OracleOK exC2b_oracle 6 1 (fun _ => 20) ∧
    print_index_sequences exC2b_oracle exC2b_cat 1 =
      [(0, ['A', 'C', 'G', 'N', 'N', 'N', 'N', 'T', 'A', 'N', 'N', 'N', 'N', 'N', 'N',
            'C', 'N', 'N', 'N', 'N'])] := by
  refine ⟨by decide, by decide, by decide, by decide⟩

/-- Claim C3, evaluated at a failing input: when the scan meets record 1 at
joined position 2, it closes record 0 by padding to `tlen`, which
`joinedToTextOff` has just overwritten with record 1's length (5), not
record 0's own declared length (2): the emitted sequence for record 0 has
length `exC1_len 1`, not `exC1_len 0`. -/
theorem claim_C3_code_eval :
    OracleOK exC1_oracle 3 2 exC1_len ∧
    (print_index_sequences exC1_oracle exC1_cat 2).getD 0 (0, []) =
      (0, ['A', 'C', 'N', 'N', 'N']) ∧
    (['A', 'C', 'N', 'N', 'N'] : List Char).length = exC1_len 1 ∧
    (['A', 'C', 'N', 'N', 'N'] : List Char).length ≠ exC1_len 0 := by
  refine ⟨by decide, by decide, by decide, by decide⟩

/-- Claim C6: a position the oracle reports as owned but with an offset outside
`[0, record length)` fails the guard `tidx != 0xffffffff && textoff < tlen`
(line 150), so the step leaves the whole cursor except the scratch `tlen`
untouched: it is processed exactly like an unowned position (same step result
as with the sentinel record id), contributes no character to any record,
changes no record state, and the scan simply continues (the step is total). -/
theorem claim_C6_defensive (r : JtoRes) (c : Char) (s : InspectState)
    (h1 : r.tidx ≠ SENT) (h2 : r.tlen ≤ r.textoff) :
    stepInspect r c s = { s with tlen := r.tlen } ∧
    stepInspect r c s = stepInspect ⟨SENT, r.textoff, r.tlen⟩ c s ∧
    (stepInspect r c s).curr_ref_seq = s.curr_ref_seq ∧
    (stepInspect r c s).out = s.out ∧
    (stepInspect r c s).curr_ref = s.curr_ref := by
  have hcond : ¬(r.tidx ≠ SENT ∧ r.textoff < r.tlen) := by
    intro hc
    exact absurd hc.2 (not_lt.2 h2)
  have hcond2 : ¬((⟨SENT, r.textoff, r.tlen⟩ : JtoRes).tidx ≠ SENT ∧
      (⟨SENT, r.textoff, r.tlen⟩ : JtoRes).textoff < (⟨SENT, r.textoff, r.tlen⟩ : JtoRes).tlen) := by
    intro hc
    exact hc.1 rfl
  have he : stepInspect r c s = { s with tlen := r.tlen } := by
    rw [stepInspect, if_neg hcond]
  refine ⟨he, ?_, ?_, ?_, ?_⟩
  · rw [he, stepInspect, if_neg hcond2]
  · rw [he]
  · rw [he]
  · rw [he]

/-- Witness for claim C6 at a concrete invalid-owned oracle answer. -/
theorem claim_C6_witness :
    stepInspect ⟨0, 7, 3⟩ 'A' initState = { initState with tlen := 3 } ∧
    stepInspect ⟨0, 7, 3⟩ 'A' initState = stepInspect ⟨SENT, 7, 3⟩ 'A' initState ∧
    (stepInspect ⟨0, 7, 3⟩ 'A' initState).curr_ref_seq = initState.curr_ref_seq ∧
    (stepInspect ⟨0, 7, 3⟩ 'A' initState).out = initState.out ∧
    (stepInspect ⟨0, 7, 3⟩ 'A' initState).curr_ref = initState.curr_ref :=
  claim_C6_defensive ⟨0, 7, 3⟩ 'A' initState (by decide) (by decide)

/-- Claim C8: a supplied wrap width of 0 or anything negative fails the
`parseInt 1` check and the process reports the error and exits non-zero
(modelled as `Except.error`) before the driver — and hence the reconstruction
— runs: the result is the same error for every index, and no output is
produced. -/
theorem claim_C8_invalid_width (v : Int) (names_only : Bool) (idx : IndexModel)
    (h : v ≤ 0) :
    bowtie_inspect_main (some v) names_only idx = Except.error acrossErrMsg := by
  have hv : v < 1 := by omega
  simp [bowtie_inspect_main, parseInt, hv]

/-- An arbitrary concrete loaded index. -/
def exIndex : IndexModel := ⟨[], [], fun _ => ⟨SENT, SENT, SENT⟩⟩

/-- Witness for claim C8 at wrap width 0. -/
theorem claim_C8_witness :
    bowtie_inspect_main (some 0) false exIndex = Except.error acrossErrMsg :=
  claim_C8_invalid_width 0 false exIndex (by decide)

/-- Claim C10: the name-only emitter reads indices `0, ..., size()-1 - 1`; for
a non-empty collection the `size_t` loop bound `size() - 1` equals
`length - 1`, so every access is in bounds and exactly the entries at indices
0 through size-2 are read; for an empty collection the unsigned bound wraps to
`2^64 - 1`, so the in-bounds guarantee fails (index 0 is accessed but not in
bounds). -/
theorem claim_C10_bounds (refnames : List String) (h1 : 0 < refnames.length)
    (h2 : refnames.length < 2 ^ 64) :
    (size_t_pred refnames.length = refnames.length - 1 ∧
      ∀ i, i ∈ List.range (size_t_pred refnames.length) → i < refnames.length) ∧
    (size_t_pred (List.length ([] : List String)) = 2 ^ 64 - 1 ∧
      ¬(∀ i, i ∈ List.range (size_t_pred (List.length ([] : List String))) →
          i < List.length ([] : List String))) := by
  constructor
  · have he : size_t_pred refnames.length = refnames.length - 1 := by
      unfold size_t_pred
      omega
    refine ⟨he, ?_⟩
    intro i hi
    rw [List.mem_range, he] at hi
    omega
  · have he : size_t_pred (List.length ([] : List String)) = 2 ^ 64 - 1 := by
      unfold size_t_pred
      simp only [List.length_nil]
      omega
    refine ⟨he, ?_⟩
    intro hall
    have h0 : (0 : Nat) ∈ List.range (size_t_pred (List.length ([] : List String))) := by
      rw [List.mem_range, he]
      norm_num
    have := hall 0 h0
    simp only [List.length_nil] at this
    omega

/-- Witness for claim C10 at a two-entry collection. -/
theorem claim_C10_witness :
    (size_t_pred (List.length ["chr1", "chr2"]) = List.length ["chr1", "chr2"] - 1 ∧
      ∀ i, i ∈ List.range (size_t_pred (List.length ["chr1", "chr2"])) →
        i < List.length ["chr1", "chr2"]) ∧
    (size_t_pred (List.length ([] : List String)) = 2 ^ 64 - 1 ∧
      ¬(∀ i, i ∈ List.range (size_t_pred (List.length ([] : List String))) →
          i < List.length ([] : List String))) :=
  claim_C10_bounds ["chr1", "chr2"] (by decide) (by norm_num)

/-- Reading the first `k` entries of a list through `getD` is `take k`. -/
theorem map_range_getD_eq_take (l : List String) (k : Nat) (hk : k ≤ l.length) :
    (List.range k).map (fun i => l.getD i "") = l.take k := by
  apply List.ext_getElem
  · simp
    omega
  · intro i h1 h2
    simp only [List.getElem_map, List.getElem_range, List.getElem_take]
    have hi : i < l.length := by
      simp at h1
      omega
    exact List.getD_eq_getElem l "" hi

/-- Claim C4, counterexample: with two entries in the refnames collection the
name-only emitter prints only the first one — the loop bound `size() - 1`
drops the final entry, so the output is not the list of all labels. -/
theorem claim_C4_counterexample :
    print_index_sequence_names ["chr1", "chr2"] ≠ ["chr1", "chr2"] := by
  decide

/-- Claim C4 as amended: in name-only mode the output equals the ordered list
of record labels with the final entry of the collection omitted (the source
iterates `size() - 1` entries), and it is independent of the joined-sequence
content: the reconstruction scan is not run, so two indexes with the same
refnames produce identical name-only output whatever their joined sequences
and oracles are. -/
theorem claim_C4_amended (refnames : List String) (idx idx2 : IndexModel) (a : Int)
    (h1 : 0 < refnames.length) (h2 : refnames.length < 2 ^ 64)
    (h3 : idx.refnames = idx2.refnames) :
    print_index_sequence_names refnames = refnames.dropLast ∧
    driver a true idx = driver a true idx2 := by
  constructor
  · have he : size_t_pred refnames.length = refnames.length - 1 := by
      unfold size_t_pred
      omega
    rw [print_index_sequence_names, he, List.dropLast_eq_take]
    exact map_range_getD_eq_take refnames (refnames.length - 1) (by omega)
  · simp [driver, h3]

/-- A concrete loaded index with refnames x, y and a one-character joined
sequence fully owned by record 0. -/
def exIndexA : IndexModel := ⟨["x", "y"], ['A'], fun _ => ⟨0, 0, 1⟩⟩

/-- A concrete loaded index with the same refnames as `exIndexA` but an
entirely different joined sequence and oracle. -/
def exIndexB : IndexModel := ⟨["x", "y"], ['C', 'G'], fun _ => ⟨SENT, SENT, SENT⟩⟩

/-- Witness for claim C4 (amended) at a concrete two-entry collection and two
indexes differing only in joined-sequence content. -/
theorem claim_C4_witness :
    print_index_sequence_names ["chr1", "chr2"] = (["chr1", "chr2"] : List String).dropLast ∧
    driver 60 true exIndexA = driver 60 true exIndexB :=
  claim_C4_amended ["chr1", "chr2"] exIndexA exIndexB 60 (by decide) (by norm_num) rfl

/-- The wrapping loop yields no lines exactly for the empty sequence. -/
theorem wrapLines_eq_nil_iff (w : Nat) (s : List Char) : wrapLines w s = [] ↔ s = [] := by
  unfold wrapLines
  by_cases h : 0 < w ∧ w < s.length
  · rw [dif_pos h]
    constructor
    · intro hc
      exact absurd hc (List.cons_ne_nil _ _)
    · intro hs
      subst hs
      simp at h
  · rw [dif_neg h]
    by_cases h0 : s.length = 0
    · simp [h0, List.length_eq_zero.mp h0]
    · simp [h0]
      intro hs
      subst hs
      simp at h0

/-- Concatenating the wrapped lines restores the sequence. -/
theorem wrapLines_flatten (w : Nat) (s : List Char) : (wrapLines w s).flatten = s := by
  induction s using wrapLines.induct w with
  | case1 s h ih =>
    rw [wrapLines, dif_pos h, List.flatten_cons, ih, List.take_append_drop]
  | case2 s h h0 =>
    rw [wrapLines, dif_neg h, if_pos h0]
    exact (List.length_eq_zero.mp h0).symm
  | case3 s h h0 =>
    rw [wrapLines, dif_neg h, if_neg h0]
    simp

/-- Every wrapped line except possibly the last has length exactly `w`, and
for a non-empty sequence the last line has length between 1 and `w`. -/
theorem wrapLines_sizes (w : Nat) (s : List Char) (hw : 0 < w) :
    (∀ l ∈ (wrapLines w s).dropLast, l.length = w) ∧
    (s ≠ [] → 1 ≤ ((wrapLines w s).getLastD []).length ∧
      ((wrapLines w s).getLastD []).length ≤ w) := by
  induction s using wrapLines.induct w with
  | case1 s h ih =>
    have hd : s.drop w ≠ [] := by
      intro hc
      have : s.length - w = 0 := by rw [← List.length_drop, hc]; rfl
      omega
    have hrec : wrapLines w (s.drop w) ≠ [] := by
      rw [ne_eq, wrapLines_eq_nil_iff]
      exact hd
    obtain ⟨a, t, hat⟩ := List.exists_cons_of_ne_nil hrec
    constructor
    · intro l hl
      rw [wrapLines, dif_pos h, hat, List.dropLast_cons₂, ← hat] at hl
      rcases List.mem_cons.mp hl with h1 | h2
      · rw [h1, List.length_take]
        omega
      · exact ih.1 l h2
    · intro _
      have hih := ih.2 hd
      rw [hat] at hih
      rw [wrapLines, dif_pos h, hat]
      simp only [List.getLastD_cons] at hih ⊢
      exact hih
  | case2 s h h0 =>
    constructor
    · intro l hl
      rw [wrapLines, dif_neg h, if_pos h0] at hl
      simp at hl
    · intro hs
      exact absurd (List.length_eq_zero.mp h0) hs
  | case3 s h h0 =>
    constructor
    · intro l hl
      rw [wrapLines, dif_neg h, if_neg h0] at hl
      simp at hl
    · intro _
      rw [wrapLines, dif_neg h, if_neg h0]
      simp only [List.getLastD_cons, List.getLastD_nil]
      constructor
      · omega
      · push_neg at h
        exact h hw

/-- Claim C7: for every wrap width `w ≥ 1` and non-empty sequence, the
sequence lines of the FASTA block (everything after the header line)
concatenate back to the original sequence; every line except possibly the
last is exactly `w` characters, and the last line has between 1 and `w`
characters. -/
theorem claim_C7_wrap (w : Nat) (defline : String) (s : List Char)
    (hw : 1 ≤ w) (hs : s ≠ []) :
    (((print_fasta_record defline s w).tail.map String.toList).flatten = s) ∧
    (∀ l ∈ ((print_fasta_record defline s w).tail.map String.toList).dropLast,
      l.length = w) ∧
    1 ≤ (((print_fasta_record defline s w).tail.map String.toList).getLastD []).length ∧
    (((print_fasta_record defline s w).tail.map String.toList).getLastD []).length ≤ w := by
  have ht : (print_fasta_record defline s w).tail.map String.toList = wrapLines w s := by
    rw [print_fasta_record, List.tail_cons, List.map_map]
    have hid : (String.toList ∘ fun l : List Char => String.mk l) = id := by
      funext l
      rfl
    rw [hid, List.map_id]
  rw [ht]
  exact ⟨wrapLines_flatten w s, (wrapLines_sizes w s hw).1,
    ((wrapLines_sizes w s hw).2 hs).1, ((wrapLines_sizes w s hw).2 hs).2⟩

/-- Witness for claim C7 at width 2 and a three-character sequence. -/
theorem claim_C7_witness :
    (((print_fasta_record "r" ['A', 'C', 'G'] 2).tail.map String.toList).flatten =
      ['A', 'C', 'G']) ∧
    (∀ l ∈ ((print_fasta_record "r" ['A', 'C', 'G'] 2).tail.map String.toList).dropLast,
      l.length = 2) ∧
    1 ≤ (((print_fasta_record "r" ['A', 'C', 'G'] 2).tail.map
        String.toList).getLastD []).length ∧
    (((print_fasta_record "r" ['A', 'C', 'G'] 2).tail.map
        String.toList).getLastD []).length ≤ 2 :=
  claim_C7_wrap 2 "r" ['A', 'C', 'G'] (by decide) (by decide)

theorem scanFold_succ (oracle : Nat → JtoRes) (cat : List Char) (n : Nat) :
    scanFold oracle cat (n + 1) =
      stepInspect (oracle n) (cat.getD n 'A') (scanFold oracle cat n) := by
  simp [scanFold, List.range_succ, List.foldl_append]

theorem ownedIds_succ (oracle : Nat → JtoRes) (n : Nat) :
    ownedIds oracle (n + 1) =
      ownedIds oracle n ++ (if owned oracle n then [(oracle n).tidx] else []) := by
  simp only [ownedIds, List.range_succ, List.filter_append, List.map_append]
  by_cases h : owned oracle n
  · simp [h]
  · simp [h]

theorem mem_ownedIds (oracle : Nat → JtoRes) (n t : Nat) :
    t ∈ ownedIds oracle n ↔ ∃ i, i < n ∧ owned oracle i = true ∧ (oracle i).tidx = t := by
  simp only [ownedIds, List.mem_map, List.mem_filter, List.mem_range]
  constructor
  · rintro ⟨i, ⟨hi, ho⟩, ht⟩
    exact ⟨i, hi, ho, ht⟩
  · rintro ⟨i, hi, ho, ht⟩
    exact ⟨i, ⟨hi, ho⟩, ht⟩

theorem mem_foldl_foInsert (l : List Nat) :
    ∀ (acc : List Nat) (a : Nat), a ∈ l.foldl foInsert acc ↔ a ∈ acc ∨ a ∈ l := by
  induction l with
  | nil => simp
  | cons b t ih =>
    intro acc a
    rw [List.foldl_cons, ih]
    unfold foInsert
    by_cases hb : b ∈ acc
    · simp only [if_pos hb, List.mem_cons]
      constructor
      · intro hc
        tauto
      · rintro (h | h | h)
        · tauto
        · subst h
          tauto
        · tauto
    · simp only [if_neg hb, List.mem_append, List.mem_singleton, List.mem_cons]
      tauto

theorem mem_firstOccurs (l : List Nat) (a : Nat) : a ∈ firstOccurs l ↔ a ∈ l := by
  unfold firstOccurs
  rw [mem_foldl_foInsert]
  simp

theorem nodup_foldl_foInsert (l : List Nat) :
    ∀ acc : List Nat, acc.Nodup → (l.foldl foInsert acc).Nodup := by
  induction l with
  | nil =>
    intro acc h
    simpa using h
  | cons b t ih =>
    intro acc h
    rw [List.foldl_cons]
    apply ih
    unfold foInsert
    by_cases hb : b ∈ acc
    · simpa [hb] using h
    · rw [if_neg hb, List.nodup_append]
      exact ⟨h, List.nodup_singleton b, by simpa using hb⟩

theorem firstOccurs_nodup (l : List Nat) : (firstOccurs l).Nodup :=
  nodup_foldl_foInsert l [] List.nodup_nil

theorem firstOccurs_concat_mem (l : List Nat) (a : Nat) (h : a ∈ l) :
    firstOccurs (l ++ [a]) = firstOccurs l := by
  have h2 : a ∈ firstOccurs l := (mem_firstOccurs l a).2 h
  unfold firstOccurs at h2 ⊢
  rw [List.foldl_append, List.foldl_cons, List.foldl_nil, foInsert, if_pos h2]

theorem firstOccurs_concat_not_mem (l : List Nat) (a : Nat) (h : a ∉ l) :
    firstOccurs (l ++ [a]) = firstOccurs l ++ [a] := by
  have h2 : a ∉ firstOccurs l := fun hc => h ((mem_firstOccurs l a).1 hc)
  unfold firstOccurs at h2 ⊢
  rw [List.foldl_append, List.foldl_cons, List.foldl_nil, foInsert, if_neg h2]

theorem stepInspect_skip (r : JtoRes) (c : Char) (s : InspectState)
    (h : ¬(r.tidx ≠ SENT ∧ r.textoff < r.tlen)) :
    stepInspect r c s = { s with tlen := r.tlen } := by
  rw [stepInspect, if_neg h]

theorem stepInspect_same (r : JtoRes) (c : Char) (s : InspectState)
    (h : r.tidx ≠ SENT ∧ r.textoff < r.tlen) (h2 : r.tidx = s.curr_ref) :
    (stepInspect r c s).out = s.out ∧ (stepInspect r c s).curr_ref = s.curr_ref := by
  rw [stepInspect, if_pos h]
  have hne : ¬r.tidx ≠ s.curr_ref := fun hc => hc h2
  rw [if_neg hne]
  exact ⟨rfl, rfl⟩

theorem stepInspect_new (r : JtoRes) (c : Char) (s : InspectState)
    (h : r.tidx ≠ SENT ∧ r.textoff < r.tlen) (h2 : r.tidx ≠ s.curr_ref) :
    (stepInspect r c s).out =
      (if s.curr_ref ≠ SENT then s.out ++ [(s.curr_ref, padTo s.curr_ref_seq r.tlen)]
       else s.out) ∧
    (stepInspect r c s).curr_ref = r.tidx := by
  rw [stepInspect, if_pos h, if_pos h2]
  exact ⟨rfl, rfl⟩

theorem owned_iff (oracle : Nat → JtoRes) (i : Nat) :
    owned oracle i = true ↔ ((oracle i).tidx ≠ SENT ∧ (oracle i).textoff < (oracle i).tlen) := by
  simp [owned]

/-- The central invariant of the reconstruction scan: after `n` steps, the
emitted record ids followed by the open record id (when one is open) are
exactly the owned record ids in first-encountered order; the cursor is the
sentinel only while nothing has been owned; and when a record is open there
is a last owned position carrying its id. -/
theorem scan_invariant (oracle : Nat → JtoRes) (cat : List Char) (nrefs : Nat)
    (len : Nat → Nat) :
    ∀ n, OracleOK oracle n nrefs len →
      ((scanFold oracle cat n).out.map Prod.fst ++
          (if (scanFold oracle cat n).curr_ref = SENT then []
           else [(scanFold oracle cat n).curr_ref]) =
        firstOccurs (ownedIds oracle n)) ∧
      ((scanFold oracle cat n).curr_ref = SENT → ownedIds oracle n = []) ∧
      ((scanFold oracle cat n).curr_ref ≠ SENT →
        ∃ i, i < n ∧ owned oracle i = true ∧
          (oracle i).tidx = (scanFold oracle cat n).curr_ref ∧
          ∀ j, j < n → owned oracle j = true →
            (oracle j).tidx ≠ (scanFold oracle cat n).curr_ref → j < i) := by
  intro n
  induction n with
  | zero =>
    intro _
    refine ⟨by simp [scanFold, initState, ownedIds, firstOccurs], ?_, ?_⟩
    · intro _
      rfl
    · intro hc
      exact absurd rfl hc
  | succ n ih =>
    intro hok
    have hok' : OracleOK oracle n nrefs len := by
      obtain ⟨ha, hb, hc, hd⟩ := hok
      refine ⟨ha, ?_, ?_, ?_⟩
      · intro i hi
        exact hb i (by omega)
      · intro i hi j hj
        exact hc i (by omega) j (by omega)
      · intro i hi j hj k hk
        exact hd i (by omega) j (by omega) k (by omega)
    obtain ⟨inv1, inv2, inv3⟩ := ih hok'
    rw [scanFold_succ, ownedIds_succ]
    by_cases how : (oracle n).tidx ≠ SENT ∧ (oracle n).textoff < (oracle n).tlen
    · have howb : owned oracle n = true := (owned_iff oracle n).2 how
      rw [if_pos howb]
      by_cases hsame : (oracle n).tidx = (scanFold oracle cat n).curr_ref
      · -- same record continues
        obtain ⟨hout, hcur⟩ :=
          stepInspect_same (oracle n) (cat.getD n 'A') (scanFold oracle cat n) how hsame
        have hcurne : (scanFold oracle cat n).curr_ref ≠ SENT := hsame ▸ how.1
        obtain ⟨i, hi, hio, hit, hlast⟩ := inv3 hcurne
        have hmem : (oracle n).tidx ∈ ownedIds oracle n := by
          rw [mem_ownedIds]
          exact ⟨i, hi, hio, by rw [hit, ← hsame]⟩
        refine ⟨?_, ?_, ?_⟩
        · rw [hout, hcur, if_neg hcurne, firstOccurs_concat_mem _ _ hmem]
          rw [if_neg hcurne] at inv1
          exact inv1
        · intro hc
          rw [hcur] at hc
          exact absurd hc hcurne
        · intro _
          rw [hcur]
          refine ⟨n, by omega, howb, hsame, ?_⟩
          intro j hj hjo hjne
          have : j ≠ n := by
            intro hc
            subst hc
            exact hjne hsame
          omega
      · -- record switch
        obtain ⟨hout, hcur⟩ :=
          stepInspect_new (oracle n) (cat.getD n 'A') (scanFold oracle cat n) how hsame
        by_cases hsent : (scanFold oracle cat n).curr_ref = SENT
        · -- first record ever
          have hids : ownedIds oracle n = [] := inv2 hsent
          have houtmap : (scanFold oracle cat n).out.map Prod.fst = [] := by
            rw [if_pos hsent] at inv1
            rw [hids] at inv1
            simpa [firstOccurs] using inv1
          have hnotsent : ¬(scanFold oracle cat n).curr_ref ≠ SENT := fun hc => hc hsent
          refine ⟨?_, ?_, ?_⟩
          · rw [hout, if_neg hnotsent, hcur, if_neg how.1, houtmap, hids]
            rfl
          · intro hc
            rw [hcur] at hc
            exact absurd hc how.1
          · intro _
            rw [hcur]
            refine ⟨n, by omega, howb, rfl, ?_⟩
            intro j hj hjo hjne
            have : j ≠ n := by
              intro hc
              subst hc
              exact hjne rfl
            have hjn : j < n := by omega
            have : (oracle j).tidx ∈ ownedIds oracle n := by
              rw [mem_ownedIds]
              exact ⟨j, hjn, hjo, rfl⟩
            rw [hids] at this
            simp at this
        · -- a previous record closes
          obtain ⟨i, hi, hio, hit, hlast⟩ := inv3 hsent
          have hnotmem : (oracle n).tidx ∉ ownedIds oracle n := by
            intro hmem
            obtain ⟨j, hj, hjo, hjt⟩ := (mem_ownedIds oracle n _).1 hmem
            have hjne : (oracle j).tidx ≠ (scanFold oracle cat n).curr_ref := by
              rw [hjt]
              exact hsame
            have hji : j < i := hlast j hj hjo hjne
            have hconv := hok.2.2.2 j (by omega) i (by omega) n (by omega)
            have hjo2 := (owned_iff oracle j).1 hjo
            have hio2 := (owned_iff oracle i).1 hio
            have : (oracle i).tidx = (oracle j).tidx :=
              hconv ⟨hji, hi, hjo2.1, hio2.1, how.1, by rw [hjt]⟩
            rw [hit] at this
            exact hsame (by rw [← hjt, ← this])
          refine ⟨?_, ?_, ?_⟩
          · rw [hout, if_pos hsent, hcur, if_neg how.1, List.map_append]
            simp only [List.map_cons, List.map_nil]
            rw [firstOccurs_concat_not_mem _ _ hnotmem]
            rw [if_neg hsent] at inv1
            rw [← inv1]
          · intro hc
            rw [hcur] at hc
            exact absurd hc how.1
          · intro _
            rw [hcur]
            refine ⟨n, by omega, howb, rfl, ?_⟩
            intro j hj hjo hjne
            have : j ≠ n := by
              intro hc
              subst hc
              exact hjne rfl
            omega
    · -- unowned or invalid position: state unchanged except tlen
      have howb : owned oracle n = false := by
        simp only [owned, decide_eq_false_iff_not]
        exact how
      have hids : ownedIds oracle n ++ (if owned oracle n then [(oracle n).tidx] else []) =
          ownedIds oracle n := by
        rw [howb]
        simp
      rw [hids]
      have hstep := stepInspect_skip (oracle n) (cat.getD n 'A') (scanFold oracle cat n) how
      rw [hstep]
      refine ⟨?_, ?_, ?_⟩
      · simpa using inv1
      · intro hc
        exact inv2 hc
      · intro hc
        obtain ⟨i, hi, hio, hit, hlast⟩ := inv3 hc
        refine ⟨i, by omega, hio, hit, ?_⟩
        intro j hj hjo hjne
        have hjn : j ≠ n := by
          intro hcc
          subst hcc
          rw [howb] at hjo
          exact Bool.false_ne_true hjo
        exact hlast j (by omega) hjo hjne

/-- The emitted record identities are exactly the owned identities of the scan
in first-encountered order, each exactly once. -/
theorem emitted_eq_firstOccurs (oracle : Nat → JtoRes) (cat : List Char) (nrefs : Nat)
    (len : Nat → Nat) (hok : OracleOK oracle cat.length nrefs len) :
    emittedIds oracle cat nrefs = firstOccurs (ownedIds oracle cat.length) := by
  obtain ⟨inv1, inv2, inv3⟩ := scan_invariant oracle cat nrefs len cat.length hok
  unfold emittedIds print_index_sequences
  by_cases hc : (scanFold oracle cat cat.length).curr_ref = SENT
  · have hng : ¬(scanFold oracle cat cat.length).curr_ref < nrefs := by
      rw [hc]
      exact fun hlt => absurd hok.1 (not_le.2 hlt)
    rw [if_pos hc] at inv1
    simp only [hng, if_false]
    simpa using inv1
  · obtain ⟨i, hi, hio, hit, _⟩ := inv3 hc
    have hio2 := (owned_iff oracle i).1 hio
    have hlt : (scanFold oracle cat cat.length).curr_ref < nrefs := by
      have := (hok.2.1 i hi hio2.1).1
      rw [hit] at this
      exact this
    rw [if_neg hc] at inv1
    simp only [hlt, if_true]
    rw [List.map_append]
    simpa using inv1

/-- No owned position in the scan leaves the cursor at the sentinel with
nothing emitted. -/
theorem scan_all_skip (oracle : Nat → JtoRes) (cat : List Char) :
    ∀ n, (∀ i, i < n → owned oracle i = false) →
      (scanFold oracle cat n).curr_ref = SENT ∧ (scanFold oracle cat n).out = [] := by
  intro n
  induction n with
  | zero =>
    intro _
    exact ⟨rfl, rfl⟩
  | succ n ih =>
    intro h
    obtain ⟨h1, h2⟩ := ih (fun i hi => h i (by omega))
    have how : ¬((oracle n).tidx ≠ SENT ∧ (oracle n).textoff < (oracle n).tlen) := by
      have := h n (by omega)
      simp only [owned, decide_eq_false_iff_not] at this
      exact this
    rw [scanFold_succ, stepInspect_skip _ _ _ how]
    exact ⟨h1, h2⟩

/-- Claim C5: under the oracle contract, records are emitted exactly in the
order in which their first owned position appears in the joined scan, and no
record identity is ever emitted twice — once closed, a record is never
reopened. -/
theorem claim_C5_order (oracle : Nat → JtoRes) (cat : List Char) (nrefs : Nat)
    (len : Nat → Nat) (hok : OracleOK oracle cat.length nrefs len) :
    emittedIds oracle cat nrefs = firstOccurs (ownedIds oracle cat.length) ∧
    (emittedIds oracle cat nrefs).Nodup := by
  have key := emitted_eq_firstOccurs oracle cat nrefs len hok
  exact ⟨key, key ▸ firstOccurs_nodup _⟩

def exC5_oracle : Nat → JtoRes := fun i =>
  if i = 0 then ⟨0, 0, 1⟩ else if i = 1 then ⟨1, 0, 2⟩ else ⟨SENT, SENT, SENT⟩

def exC5_len : Nat → Nat := fun t => if t = 0 then 1 else 2

def exC5_cat : List Char := ['A', 'C']

/-- Witness for claim C5 at a concrete two-record index. -/
theorem claim_C5_witness :
    emittedIds exC5_oracle exC5_cat 2 = firstOccurs (ownedIds exC5_oracle exC5_cat.length) ∧
    (emittedIds exC5_oracle exC5_cat 2).Nodup :=
  claim_C5_order exC5_oracle exC5_cat 2 exC5_len (by decide)

/-- Claim C9: under the oracle contract, a record of declared length 0 is
never yielded (an owned position would need an offset below 0); a record
identity that never appears as owned in the scan is never yielded; and a scan
that meets no owned position at all emits nothing. -/
theorem claim_C9_absent (oracle : Nat → JtoRes) (cat : List Char) (nrefs : Nat)
    (len : Nat → Nat) (r : Nat) (hok : OracleOK oracle cat.length nrefs len) :
    (len r = 0 → r ∉ emittedIds oracle cat nrefs) ∧
    ((∀ i, i < cat.length → owned oracle i = true → (oracle i).tidx ≠ r) →
      r ∉ emittedIds oracle cat nrefs) ∧
    ((∀ i, i < cat.length → owned oracle i = false) →
      print_index_sequences oracle cat nrefs = []) := by
  have key := emitted_eq_firstOccurs oracle cat nrefs len hok
  refine ⟨?_, ?_, ?_⟩
  · intro h0 hmem
    rw [key, mem_firstOccurs, mem_ownedIds] at hmem
    obtain ⟨i, hi, hio, hit⟩ := hmem
    have hio2 := (owned_iff oracle i).1 hio
    have hlen := (hok.2.1 i hi hio2.1).2.2.1
    rw [hit, h0] at hlen
    omega
  · intro hno hmem
    rw [key, mem_firstOccurs, mem_ownedIds] at hmem
    obtain ⟨i, hi, hio, hit⟩ := hmem
    exact hno i hi hio hit
  · intro hnone
    obtain ⟨h1, h2⟩ := scan_all_skip oracle cat cat.length hnone
    unfold print_index_sequences
    have hng : ¬(scanFold oracle cat cat.length).curr_ref < nrefs := by
      rw [h1]
      exact fun hlt => absurd hok.1 (not_le.2 hlt)
    simp only [hng, if_false]
    exact h2

def exC9_oracle : Nat → JtoRes := fun _ => ⟨SENT, SENT, SENT⟩

def exC9_len : Nat → Nat := fun _ => 0

def exC9_cat : List Char := ['A']

/-- Witness for claim C9: a scan with no owned position emits nothing, and the
length-0 record 0 is not among the emitted identities. -/
theorem claim_C9_witness :
    (0 : Nat) ∉ emittedIds exC9_oracle exC9_cat 1 ∧
    print_index_sequences exC9_oracle exC9_cat 1 = [] :=
  ⟨(claim_C9_absent exC9_oracle exC9_cat 1 exC9_len 0 (by decide)).1 rfl,
   (claim_C9_absent exC9_oracle exC9_cat 1 exC9_len 0 (by decide)).2.2 (by decide)⟩
